import Mathlib

/-!
Shallow embedding of `mobius_strip.py` (class `MobiusStrip`): a discretized
parametric Möbius strip with derived surface-area and edge-length estimators.

Arrays are modelled as a length together with a total entry function
(entries past the length are irrelevant junk, as in a numpy array's data
viewed through its shape).  Real numbers model Python floats exactly
(the spec's claims are about the formulas, not rounding).
-/

open Real

noncomputable section

/-- A 1-D numpy-style array: a length and an entry function. -/
@[ext]
structure Array1D where
  len : ℕ
  entry : ℕ → ℝ

/-- A 2-D numpy-style array: a shape and an entry function. -/
@[ext]
structure Array2D where
  rows : ℕ
  cols : ℕ
  entry : ℕ → ℕ → ℝ

/-- `np.linspace a b n` with `endpoint=True`: `n` evenly spaced samples over
`[a, b]`, both endpoints included; for `n ≤ 1` numpy returns `[a]` (or empty),
with no spacing step involved. -/
def linspace (a b : ℝ) (n : ℕ) : Array1D :=
  ⟨n, fun k => if n ≤ 1 then a else a + (b - a) * k / ((n : ℝ) - 1)⟩

/-- First component of `np.meshgrid u v`: shape `(v.len, u.len)`, entry
`(i, j) ↦ u[j]`. -/
def meshgridU (u v : Array1D) : Array2D :=
  ⟨v.len, u.len, fun _ j => u.entry j⟩

/-- Second component of `np.meshgrid u v`: shape `(v.len, u.len)`, entry
`(i, j) ↦ v[i]`. -/
def meshgridV (u v : Array1D) : Array2D :=
  ⟨v.len, u.len, fun i _ => v.entry i⟩

/-- The state of a `MobiusStrip` object: the three parameters and the stored
derived arrays (`u_range`, `v_range`, the mesh grids, and the coordinates). -/
@[ext]
structure MobiusStrip where
  radius : ℝ
  width : ℝ
  resolution : ℕ
  u_range : Array1D
  v_range : Array1D
  u_grid : Array2D
  v_grid : Array2D
  x : Array2D
  y : Array2D
  z : Array2D

namespace MobiusStrip

/-- `MobiusStrip._compute_coordinates`: recompute `x`, `y`, `z` from the
current grids and radius by the parametric equations. -/
def _compute_coordinates (s : MobiusStrip) : MobiusStrip :=
  { s with
    x := ⟨s.u_grid.rows, s.u_grid.cols, fun i j =>
      (s.radius + s.v_grid.entry i j * Real.cos (s.u_grid.entry i j / 2)) *
        Real.cos (s.u_grid.entry i j)⟩
    y := ⟨s.u_grid.rows, s.u_grid.cols, fun i j =>
      (s.radius + s.v_grid.entry i j * Real.cos (s.u_grid.entry i j / 2)) *
        Real.sin (s.u_grid.entry i j)⟩
    z := ⟨s.u_grid.rows, s.u_grid.cols, fun i j =>
      s.v_grid.entry i j * Real.sin (s.u_grid.entry i j / 2)⟩ }

/-- `MobiusStrip._update_mesh`: rebuild the mesh grids from `u_range` and
`v_range`, then recompute the coordinates. -/
def _update_mesh (s : MobiusStrip) : MobiusStrip :=
  _compute_coordinates
    { s with
      u_grid := meshgridU s.u_range s.v_range
      v_grid := meshgridV s.u_range s.v_range }

/-- `MobiusStrip.__init__`: store the parameters, build `u_range` and
`v_range` with `np.linspace`, then run `_update_mesh`.  The grid and
coordinate fields start as placeholders and are overwritten before the
constructor returns. -/
def create (radius width : ℝ) (resolution : ℕ) : MobiusStrip :=
  _update_mesh
    ⟨radius, width, resolution,
     linspace 0 (2 * Real.pi) resolution,
     linspace (-width / 2) (width / 2) resolution,
     ⟨0, 0, fun _ _ => 0⟩, ⟨0, 0, fun _ _ => 0⟩,
     ⟨0, 0, fun _ _ => 0⟩, ⟨0, 0, fun _ _ => 0⟩, ⟨0, 0, fun _ _ => 0⟩⟩

/-- `MobiusStrip.update_parameters`: each supplied field is stored (width and
resolution also regenerate the corresponding linspace arrays, in source
order), then `_update_mesh` runs. -/
def update_parameters (s : MobiusStrip) (radius : Option ℝ) (width : Option ℝ)
    (resolution : Option ℕ) : MobiusStrip :=
  let s1 := match radius with
    | some r => { s with radius := r }
    | none => s
  let s2 := match width with
    | some w =>
      { s1 with
        width := w
        v_range := linspace (-w / 2) (w / 2) s1.resolution }
    | none => s1
  let s3 := match resolution with
    | some n =>
      { s2 with
        resolution := n
        u_range := linspace 0 (2 * Real.pi) n
        v_range := linspace (-s2.width / 2) (s2.width / 2) n }
    | none => s2
  _update_mesh s3

/-- `MobiusStrip.get_coordinates`. -/
def get_coordinates (s : MobiusStrip) : Array2D × Array2D × Array2D :=
  (s.x, s.y, s.z)

/-- `MobiusStrip.get_edge_points`: rows `0` and `resolution - 1` of the
coordinate arrays. -/
def get_edge_points (s : MobiusStrip) :
    (Array1D × Array1D × Array1D) × (Array1D × Array1D × Array1D) :=
  ((⟨s.x.cols, fun j => s.x.entry 0 j⟩,
    ⟨s.y.cols, fun j => s.y.entry 0 j⟩,
    ⟨s.z.cols, fun j => s.z.entry 0 j⟩),
   (⟨s.x.cols, fun j => s.x.entry (s.resolution - 1) j⟩,
    ⟨s.y.cols, fun j => s.y.entry (s.resolution - 1) j⟩,
    ⟨s.z.cols, fun j => s.z.entry (s.resolution - 1) j⟩))

/-- `MobiusStrip.calculate_surface_area`: analytic partials at every grid
point, the magnitude of their cross product summed over the grid, scaled by
`du * dv`. -/
def calculate_surface_area (s : MobiusStrip) : ℝ :=
  let du := s.u_range.entry 1 - s.u_range.entry 0
  let dv := s.v_range.entry 1 - s.v_range.entry 0
  let R_u_x := fun i j =>
    -s.v_grid.entry i j * Real.sin (s.u_grid.entry i j / 2) *
        Real.cos (s.u_grid.entry i j) / 2 -
      (s.radius + s.v_grid.entry i j * Real.cos (s.u_grid.entry i j / 2)) *
        Real.sin (s.u_grid.entry i j)
  let R_u_y := fun i j =>
    -s.v_grid.entry i j * Real.sin (s.u_grid.entry i j / 2) *
        Real.sin (s.u_grid.entry i j) / 2 +
      (s.radius + s.v_grid.entry i j * Real.cos (s.u_grid.entry i j / 2)) *
        Real.cos (s.u_grid.entry i j)
  let R_u_z := fun i j =>
    s.v_grid.entry i j * Real.cos (s.u_grid.entry i j / 2) / 2
  let R_v_x := fun i j =>
    Real.cos (s.u_grid.entry i j / 2) * Real.cos (s.u_grid.entry i j)
  let R_v_y := fun i j =>
    Real.cos (s.u_grid.entry i j / 2) * Real.sin (s.u_grid.entry i j)
  let R_v_z := fun i j => Real.sin (s.u_grid.entry i j / 2)
  let cross_x := fun i j => R_u_y i j * R_v_z i j - R_u_z i j * R_v_y i j
  let cross_y := fun i j => R_u_z i j * R_v_x i j - R_u_x i j * R_v_z i j
  let cross_z := fun i j => R_u_x i j * R_v_y i j - R_u_y i j * R_v_x i j
  let cross_magnitude := fun i j =>
    Real.sqrt ((cross_x i j) ^ 2 + (cross_y i j) ^ 2 + (cross_z i j) ^ 2)
  (∑ i ∈ Finset.range s.u_grid.rows, ∑ j ∈ Finset.range s.u_grid.cols,
      cross_magnitude i j) * du * dv

/-- `MobiusStrip.calculate_edge_length`: chord lengths along the first edge
row summed, scaled by `2π / resolution`. -/
def calculate_edge_length (s : MobiusStrip) : ℝ :=
  let e := (get_edge_points s).1
  let dx := fun k => e.1.entry (k + 1) - e.1.entry k
  let dy := fun k => e.2.1.entry (k + 1) - e.2.1.entry k
  let dz := fun k => e.2.2.entry (k + 1) - e.2.2.entry k
  let total_length := ∑ k ∈ Finset.range (e.1.len - 1),
    Real.sqrt ((dx k) ^ 2 + (dy k) ^ 2 + (dz k) ^ 2)
  total_length * 2 * Real.pi / (s.resolution : ℝ)

/-- The error kind the specification describes.  The Python source never
raises it: neither `__init__` nor `update_parameters` contains any
validation. -/
inductive MobiusError where
  | InvalidParameter
deriving DecidableEq

/-- `__init__` viewed as a fallible operation: the source body contains no
raise and no check, so the embedding always succeeds. -/
def createE (radius width : ℝ) (resolution : ℕ) :
    Except MobiusError MobiusStrip :=
  Except.ok (create radius width resolution)

/-- `update_parameters` viewed as a fallible operation: the source body
contains no raise and no check, so the embedding always succeeds. -/
def update_parametersE (s : MobiusStrip) (radius : Option ℝ) (width : Option ℝ)
    (resolution : Option ℕ) : Except MobiusError MobiusStrip :=
  Except.ok (update_parameters s radius width resolution)

/-- The parameter invariants the specification states. -/
def Valid (s : MobiusStrip) : Prop :=
  0 < s.radius ∧ 0 < s.width ∧ 2 ≤ s.resolution

/-- The states a `MobiusStrip` object can actually be in: the stored arrays
agree with the current parameters (every code path ends in `_update_mesh`,
and `u_range`/`v_range` are the linspaces of the current parameters). -/
def Consistent (s : MobiusStrip) : Prop :=
  s.u_range = linspace 0 (2 * Real.pi) s.resolution ∧
  s.v_range = linspace (-s.width / 2) (s.width / 2) s.resolution ∧
  _update_mesh s = s

/-- The partial derivative `R_u = ∂(x,y,z)/∂u` as the specification writes
it. -/
def specPartialU (radius u v : ℝ) : ℝ × ℝ × ℝ :=
  (-v * Real.sin (u / 2) * Real.cos u / 2 -
     (radius + v * Real.cos (u / 2)) * Real.sin u,
   -v * Real.sin (u / 2) * Real.sin u / 2 +
     (radius + v * Real.cos (u / 2)) * Real.cos u,
   v * Real.cos (u / 2) / 2)

/-- The partial derivative `R_v = ∂(x,y,z)/∂v` as the specification writes
it. -/
def specPartialV (u : ℝ) : ℝ × ℝ × ℝ :=
  (Real.cos (u / 2) * Real.cos u, Real.cos (u / 2) * Real.sin u,
   Real.sin (u / 2))

/-- Cross product of two 3-vectors. -/
def crossProd (p q : ℝ × ℝ × ℝ) : ℝ × ℝ × ℝ :=
  (p.2.1 * q.2.2 - p.2.2 * q.2.1,
   p.2.2 * q.1 - p.1 * q.2.2,
   p.1 * q.2.1 - p.2.1 * q.1)

/-- Euclidean magnitude of a 3-vector. -/
def norm3 (p : ℝ × ℝ × ℝ) : ℝ :=
  Real.sqrt (p.1 ^ 2 + p.2.1 ^ 2 + p.2.2 ^ 2)

/-- The coordinate arrays are exactly the image of the current parameters:
shape `resolution × resolution`, with entries given by the embedding map
at the linspace samples of the current parameters. -/
def DerivedCurrent (s : MobiusStrip) : Prop :=
  s.x.rows = s.resolution ∧ s.x.cols = s.resolution ∧
  s.y.rows = s.resolution ∧ s.y.cols = s.resolution ∧
  s.z.rows = s.resolution ∧ s.z.cols = s.resolution ∧
  ∀ i j : ℕ,
    s.x.entry i j =
      (s.radius + (linspace (-s.width / 2) (s.width / 2) s.resolution).entry i *
          Real.cos ((linspace 0 (2 * Real.pi) s.resolution).entry j / 2)) *
        Real.cos ((linspace 0 (2 * Real.pi) s.resolution).entry j) ∧
    s.y.entry i j =
      (s.radius + (linspace (-s.width / 2) (s.width / 2) s.resolution).entry i *
          Real.cos ((linspace 0 (2 * Real.pi) s.resolution).entry j / 2)) *
        Real.sin ((linspace 0 (2 * Real.pi) s.resolution).entry j) ∧
    s.z.entry i j =
      (linspace (-s.width / 2) (s.width / 2) s.resolution).entry i *
        Real.sin ((linspace 0 (2 * Real.pi) s.resolution).entry j / 2)

/-- The angular node `u[j] = 2πj/(n-1)` of the `u` linspace. -/
def meshUnode (n j : ℕ) : ℝ := 2 * Real.pi * (j : ℝ) / ((n : ℝ) - 1)

/-- The normalized transverse node: `v[i] = width * meshT n i`. -/
def meshT (n i : ℕ) : ℝ := (i : ℝ) / ((n : ℝ) - 1) - 1 / 2

/-- Sum of the distances from the point `(a, b)` to the two foci `(∓r, 0)`:
the integrand magnitudes at mirror-image transverse nodes `±v` pair up into
this shape. -/
def pairSum (r a b : ℝ) : ℝ :=
  Real.sqrt ((r + a) ^ 2 + b ^ 2) + Real.sqrt ((r - a) ^ 2 + b ^ 2)

/-! ### Basic facts about the embedding -/

theorem create_radius (r w : ℝ) (n : ℕ) : (create r w n).radius = r := rfl

theorem create_width (r w : ℝ) (n : ℕ) : (create r w n).width = w := rfl

theorem create_resolution (r w : ℝ) (n : ℕ) :
    (create r w n).resolution = n := rfl

theorem linspace_len (a b : ℝ) (n : ℕ) : (linspace a b n).len = n := rfl

theorem linspace_entry {n : ℕ} (hn : 2 ≤ n) (a b : ℝ) (k : ℕ) :
    (linspace a b n).entry k = a + (b - a) * k / ((n : ℝ) - 1) := by
  have h : ¬ n ≤ 1 := by omega
  simp [linspace, h]

theorem update_mesh_idem (s : MobiusStrip) :
    _update_mesh (_update_mesh s) = _update_mesh s := rfl

theorem consistent_create (r w : ℝ) (n : ℕ) : Consistent (create r w n) :=
  ⟨rfl, rfl, rfl⟩

theorem consistent_update (s : MobiusStrip) (h : Consistent s)
    (a : Option ℝ) (b : Option ℝ) (c : Option ℕ) :
    Consistent (update_parameters s a b c) := by
  obtain ⟨h1, h2, -⟩ := h
  rcases a with - | r <;> rcases b with - | w <;> rcases c with - | n <;>
    first
      | exact ⟨h1, h2, rfl⟩
      | exact ⟨h1, rfl, rfl⟩
      | exact ⟨rfl, rfl, rfl⟩

theorem x_of_consistent {s : MobiusStrip} (h : Consistent s) (i j : ℕ) :
    s.x.entry i j =
      (s.radius + s.v_range.entry i * Real.cos (s.u_range.entry j / 2)) *
        Real.cos (s.u_range.entry j) := by
  conv_lhs => rw [← h.2.2]
  rfl

theorem y_of_consistent {s : MobiusStrip} (h : Consistent s) (i j : ℕ) :
    s.y.entry i j =
      (s.radius + s.v_range.entry i * Real.cos (s.u_range.entry j / 2)) *
        Real.sin (s.u_range.entry j) := by
  conv_lhs => rw [← h.2.2]
  rfl

theorem z_of_consistent {s : MobiusStrip} (h : Consistent s) (i j : ℕ) :
    s.z.entry i j = s.v_range.entry i * Real.sin (s.u_range.entry j / 2) := by
  conv_lhs => rw [← h.2.2]
  rfl

theorem x_shape_of_consistent {s : MobiusStrip} (h : Consistent s) :
    s.x.rows = s.resolution ∧ s.x.cols = s.resolution := by
  obtain ⟨h1, h2, h3⟩ := h
  constructor
  · rw [← h3]
    show s.v_range.len = s.resolution
    rw [h2, linspace_len]
  · rw [← h3]
    show s.u_range.len = s.resolution
    rw [h1, linspace_len]

theorem y_shape_of_consistent {s : MobiusStrip} (h : Consistent s) :
    s.y.rows = s.resolution ∧ s.y.cols = s.resolution := by
  obtain ⟨h1, h2, h3⟩ := h
  constructor
  · rw [← h3]
    show s.v_range.len = s.resolution
    rw [h2, linspace_len]
  · rw [← h3]
    show s.u_range.len = s.resolution
    rw [h1, linspace_len]

theorem z_shape_of_consistent {s : MobiusStrip} (h : Consistent s) :
    s.z.rows = s.resolution ∧ s.z.cols = s.resolution := by
  obtain ⟨h1, h2, h3⟩ := h
  constructor
  · rw [← h3]
    show s.v_range.len = s.resolution
    rw [h2, linspace_len]
  · rw [← h3]
    show s.u_range.len = s.resolution
    rw [h1, linspace_len]

theorem grid_of_consistent {s : MobiusStrip} (h : Consistent s) :
    s.u_grid = meshgridU s.u_range s.v_range ∧
    s.v_grid = meshgridV s.u_range s.v_range := by
  obtain ⟨-, -, h3⟩ := h
  constructor
  · conv_lhs => rw [← h3]
    rfl
  · conv_lhs => rw [← h3]
    rfl

theorem ranges_closed_form {s : MobiusStrip} (h : Consistent s)
    (hn : 2 ≤ s.resolution) :
    s.u_range.len = s.resolution ∧
    (∀ k : ℕ, s.u_range.entry k =
      2 * Real.pi * k / ((s.resolution : ℝ) - 1)) ∧
    s.u_range.entry 0 = 0 ∧
    s.u_range.entry (s.resolution - 1) = 2 * Real.pi ∧
    s.v_range.len = s.resolution ∧
    (∀ k : ℕ, s.v_range.entry k =
      -s.width / 2 + s.width * k / ((s.resolution : ℝ) - 1)) ∧
    s.v_range.entry 0 = -s.width / 2 ∧
    s.v_range.entry (s.resolution - 1) = s.width / 2 := by
  obtain ⟨h1, h2, -⟩ := h
  have hne : (s.resolution : ℝ) - 1 ≠ 0 := by
    have : (2 : ℝ) ≤ (s.resolution : ℝ) := by exact_mod_cast hn
    linarith
  have hcast : ((s.resolution - 1 : ℕ) : ℝ) = (s.resolution : ℝ) - 1 := by
    have : 1 ≤ s.resolution := by omega
    push_cast [this]
    ring
  have hu : ∀ k : ℕ, s.u_range.entry k =
      2 * Real.pi * k / ((s.resolution : ℝ) - 1) := by
    intro k
    rw [h1, linspace_entry hn]
    ring
  have hv : ∀ k : ℕ, s.v_range.entry k =
      -s.width / 2 + s.width * k / ((s.resolution : ℝ) - 1) := by
    intro k
    rw [h2, linspace_entry hn]
    ring
  refine ⟨by rw [h1, linspace_len], hu, ?_, ?_, by rw [h2, linspace_len],
    hv, ?_, ?_⟩
  · rw [hu 0]
    simp
  · rw [hu (s.resolution - 1), hcast]
    field_simp
  · rw [hv 0]
    simp
  · rw [hv (s.resolution - 1), hcast]
    field_simp
    ring

theorem derivedCurrent_of_consistent {s : MobiusStrip} (h : Consistent s) :
    DerivedCurrent s := by
  obtain ⟨hx1, hx2⟩ := x_shape_of_consistent h
  obtain ⟨hy1, hy2⟩ := y_shape_of_consistent h
  obtain ⟨hz1, hz2⟩ := z_shape_of_consistent h
  refine ⟨hx1, hx2, hy1, hy2, hz1, hz2, fun i j => ?_⟩
  refine ⟨?_, ?_, ?_⟩
  · rw [x_of_consistent h i j, h.1, h.2.1]
  · rw [y_of_consistent h i j, h.1, h.2.1]
  · rw [z_of_consistent h i j, h.1, h.2.1]

theorem meshgridU_rows (u v : Array1D) : (meshgridU u v).rows = v.len := rfl

theorem meshgridU_cols (u v : Array1D) : (meshgridU u v).cols = u.len := rfl

theorem meshgridU_entry (u v : Array1D) (i j : ℕ) :
    (meshgridU u v).entry i j = u.entry j := rfl

theorem meshgridV_entry (u v : Array1D) (i j : ℕ) :
    (meshgridV u v).entry i j = v.entry i := rfl

theorem surface_area_eq {s : MobiusStrip} (h : Consistent s) :
    calculate_surface_area s =
      (∑ i ∈ Finset.range s.resolution, ∑ j ∈ Finset.range s.resolution,
        norm3 (crossProd
          (specPartialU s.radius (s.u_range.entry j) (s.v_range.entry i))
          (specPartialV (s.u_range.entry j)))) *
        (s.u_range.entry 1 - s.u_range.entry 0) *
        (s.v_range.entry 1 - s.v_range.entry 0) := by
  obtain ⟨hgu, hgv⟩ := grid_of_consistent h
  simp only [calculate_surface_area, hgu, hgv, meshgridU_rows,
    meshgridU_cols, meshgridU_entry, meshgridV_entry, h.1, h.2.1,
    linspace_len, norm3, crossProd, specPartialU, specPartialV]

theorem surface_area_nonneg {s : MobiusStrip} (h : Consistent s)
    (hval : Valid s) : 0 ≤ calculate_surface_area s := by
  obtain ⟨hr, hw, hn⟩ := hval
  have hrc := ranges_closed_form h hn
  have hne : (0 : ℝ) < (s.resolution : ℝ) - 1 := by
    have : (2 : ℝ) ≤ (s.resolution : ℝ) := by exact_mod_cast hn
    linarith
  have hdu : 0 ≤ s.u_range.entry 1 - s.u_range.entry 0 := by
    rw [hrc.2.1 1, hrc.2.1 0]
    push_cast
    rw [show 2 * Real.pi * 1 / ((s.resolution : ℝ) - 1) -
        2 * Real.pi * 0 / ((s.resolution : ℝ) - 1) =
        2 * Real.pi / ((s.resolution : ℝ) - 1) by ring]
    exact div_nonneg (by positivity) hne.le
  have hdv : 0 ≤ s.v_range.entry 1 - s.v_range.entry 0 := by
    rw [hrc.2.2.2.2.2.1 1, hrc.2.2.2.2.2.1 0]
    push_cast
    rw [show -s.width / 2 + s.width * 1 / ((s.resolution : ℝ) - 1) -
        (-s.width / 2 + s.width * 0 / ((s.resolution : ℝ) - 1)) =
        s.width / ((s.resolution : ℝ) - 1) by ring]
    exact div_nonneg hw.le hne.le
  rw [surface_area_eq h]
  have hsum : 0 ≤ ∑ i ∈ Finset.range s.resolution,
      ∑ j ∈ Finset.range s.resolution,
        norm3 (crossProd
          (specPartialU s.radius (s.u_range.entry j) (s.v_range.entry i))
          (specPartialV (s.u_range.entry j))) := by
    refine Finset.sum_nonneg fun i _ => Finset.sum_nonneg fun j _ => ?_
    exact Real.sqrt_nonneg _
  exact mul_nonneg (mul_nonneg hsum hdu) hdv

theorem edge_length_eq {s : MobiusStrip} (h : Consistent s) :
    calculate_edge_length s =
      (∑ k ∈ Finset.range (s.resolution - 1),
        Real.sqrt ((s.x.entry 0 (k + 1) - s.x.entry 0 k) ^ 2 +
          (s.y.entry 0 (k + 1) - s.y.entry 0 k) ^ 2 +
          (s.z.entry 0 (k + 1) - s.z.entry 0 k) ^ 2)) *
        2 * Real.pi / (s.resolution : ℝ) := by
  have e1 : s.x.cols = s.resolution := (x_shape_of_consistent h).2
  simp only [calculate_edge_length, get_edge_points, e1]

theorem valid_create {r w : ℝ} {n : ℕ} (hr : 0 < r) (hw : 0 < w)
    (hn : 2 ≤ n) : Valid (create r w n) :=
  ⟨hr, hw, hn⟩

/-! ### Analytic facts for the surface-area estimator -/

theorem sqrt_sq_add_sq_triangle (a1 b1 a2 b2 : ℝ) :
    Real.sqrt ((a1 + a2) ^ 2 + (b1 + b2) ^ 2) ≤
      Real.sqrt (a1 ^ 2 + b1 ^ 2) + Real.sqrt (a2 ^ 2 + b2 ^ 2) := by
  have h1 : 0 ≤ Real.sqrt (a1 ^ 2 + b1 ^ 2) := Real.sqrt_nonneg _
  have h2 : 0 ≤ Real.sqrt (a2 ^ 2 + b2 ^ 2) := Real.sqrt_nonneg _
  have hs1 : Real.sqrt (a1 ^ 2 + b1 ^ 2) ^ 2 = a1 ^ 2 + b1 ^ 2 :=
    Real.sq_sqrt (by positivity)
  have hs2 : Real.sqrt (a2 ^ 2 + b2 ^ 2) ^ 2 = a2 ^ 2 + b2 ^ 2 :=
    Real.sq_sqrt (by positivity)
  have hsq : (a1 * a2 + b1 * b2) ^ 2 ≤
      (Real.sqrt (a1 ^ 2 + b1 ^ 2) * Real.sqrt (a2 ^ 2 + b2 ^ 2)) ^ 2 := by
    rw [mul_pow, hs1, hs2]
    nlinarith [sq_nonneg (a1 * b2 - a2 * b1)]
  have key : a1 * a2 + b1 * b2 ≤
      Real.sqrt (a1 ^ 2 + b1 ^ 2) * Real.sqrt (a2 ^ 2 + b2 ^ 2) :=
    le_of_pow_le_pow_left₀ two_ne_zero (mul_nonneg h1 h2) hsq
  calc Real.sqrt ((a1 + a2) ^ 2 + (b1 + b2) ^ 2)
      ≤ Real.sqrt ((Real.sqrt (a1 ^ 2 + b1 ^ 2) +
          Real.sqrt (a2 ^ 2 + b2 ^ 2)) ^ 2) :=
        Real.sqrt_le_sqrt (by nlinarith [key, hs1, hs2])
    _ = _ := Real.sqrt_sq (by positivity)

theorem sqrt_sq_add_sq_smul (l x y : ℝ) (hl : 0 ≤ l) :
    Real.sqrt ((l * x) ^ 2 + (l * y) ^ 2) =
      l * Real.sqrt (x ^ 2 + y ^ 2) := by
  rw [show (l * x) ^ 2 + (l * y) ^ 2 = l ^ 2 * (x ^ 2 + y ^ 2) by ring,
    Real.sqrt_mul (sq_nonneg l), Real.sqrt_sq hl]

theorem pairSum_nonneg (r a b : ℝ) : 0 ≤ pairSum r a b :=
  add_nonneg (Real.sqrt_nonneg _) (Real.sqrt_nonneg _)

theorem pairSum_ge (r a b : ℝ) (hr : 0 ≤ r) : 2 * r ≤ pairSum r a b := by
  have h := sqrt_sq_add_sq_triangle (r + a) b (r - a) (-b)
  rw [show (r + a + (r - a)) ^ 2 + (b + -b) ^ 2 = (2 * r) ^ 2 by ring,
    show (r - a) ^ 2 + (-b) ^ 2 = (r - a) ^ 2 + b ^ 2 by ring,
    Real.sqrt_sq (by linarith : (0 : ℝ) ≤ 2 * r)] at h
  exact h

theorem pairSum_scale_mono (r a b : ℝ) (hr : 0 ≤ r) {w1 w2 : ℝ}
    (h0 : 0 ≤ w1) (h12 : w1 ≤ w2) :
    pairSum r (w1 * a) (w1 * b) ≤ pairSum r (w2 * a) (w2 * b) := by
  rcases eq_or_lt_of_le (h0.trans h12) with hw2 | hw2
  · have hw1 : w1 = 0 := le_antisymm (h12.trans hw2.ge) h0
    rw [hw1, ← hw2]
  · set l := w1 / w2 with hldef
    have hl0 : 0 ≤ l := div_nonneg h0 hw2.le
    have hl1 : l ≤ 1 := (div_le_one hw2).2 h12
    have hw1l : w1 = l * w2 := by
      rw [hldef]
      field_simp
    have hr1 : 0 ≤ (1 - l) * r := mul_nonneg (by linarith) hr
    have t1 : Real.sqrt ((r + w1 * a) ^ 2 + (w1 * b) ^ 2) ≤
        l * Real.sqrt ((r + w2 * a) ^ 2 + (w2 * b) ^ 2) + (1 - l) * r := by
      have h := sqrt_sq_add_sq_triangle (l * (r + w2 * a)) (l * (w2 * b))
        ((1 - l) * r) 0
      rw [show (l * (r + w2 * a) + (1 - l) * r) ^ 2 +
            (l * (w2 * b) + 0) ^ 2 =
            (r + (l * w2) * a) ^ 2 + ((l * w2) * b) ^ 2 by ring,
        sqrt_sq_add_sq_smul l _ _ hl0,
        show ((1 - l) * r) ^ 2 + (0 : ℝ) ^ 2 = ((1 - l) * r) ^ 2 by ring,
        Real.sqrt_sq hr1, ← hw1l] at h
      exact h
    have t2 : Real.sqrt ((r - w1 * a) ^ 2 + (w1 * b) ^ 2) ≤
        l * Real.sqrt ((r - w2 * a) ^ 2 + (w2 * b) ^ 2) + (1 - l) * r := by
      have h := sqrt_sq_add_sq_triangle (l * (r - w2 * a)) (l * (w2 * b))
        ((1 - l) * r) 0
      rw [show (l * (r - w2 * a) + (1 - l) * r) ^ 2 +
            (l * (w2 * b) + 0) ^ 2 =
            (r - (l * w2) * a) ^ 2 + ((l * w2) * b) ^ 2 by ring,
        sqrt_sq_add_sq_smul l _ _ hl0,
        show ((1 - l) * r) ^ 2 + (0 : ℝ) ^ 2 = ((1 - l) * r) ^ 2 by ring,
        Real.sqrt_sq hr1, ← hw1l] at h
      exact h
    have hge := pairSum_ge r (w2 * a) (w2 * b) hr
    unfold pairSum at hge ⊢
    nlinarith [t1, t2, hge, hl1, hl0]

theorem pairSum_radius_mono (a b : ℝ) {r1 r2 : ℝ} (h0 : 0 ≤ r1)
    (h12 : r1 ≤ r2) : pairSum r1 a b ≤ pairSum r2 a b := by
  rcases eq_or_lt_of_le (h0.trans h12) with hr2 | hr2
  · have hr1 : r1 = 0 := le_antisymm (h12.trans hr2.ge) h0
    rw [hr1, ← hr2]
  · set l := (r1 + r2) / (2 * r2) with hldef
    have hl0 : 0 ≤ l := div_nonneg (by linarith) (by linarith)
    have hl1 : l ≤ 1 := by
      rw [hldef, div_le_one (by linarith)]
      linarith
    have hkey : (2 * l - 1) * r2 = r1 := by
      rw [hldef]
      field_simp
      ring
    have t1 : Real.sqrt ((r1 + a) ^ 2 + b ^ 2) ≤
        l * Real.sqrt ((r2 + a) ^ 2 + b ^ 2) +
          (1 - l) * Real.sqrt ((r2 - a) ^ 2 + b ^ 2) := by
      have h := sqrt_sq_add_sq_triangle (l * (r2 + a)) (l * b)
        ((1 - l) * (a - r2)) ((1 - l) * b)
      rw [show (l * (r2 + a) + (1 - l) * (a - r2)) ^ 2 +
            (l * b + (1 - l) * b) ^ 2 =
            ((2 * l - 1) * r2 + a) ^ 2 + b ^ 2 by ring,
        hkey, sqrt_sq_add_sq_smul l _ _ hl0,
        sqrt_sq_add_sq_smul (1 - l) _ _ (by linarith),
        show (a - r2) ^ 2 + b ^ 2 = (r2 - a) ^ 2 + b ^ 2 by ring] at h
      exact h
    have t2 : Real.sqrt ((r1 - a) ^ 2 + b ^ 2) ≤
        l * Real.sqrt ((r2 - a) ^ 2 + b ^ 2) +
          (1 - l) * Real.sqrt ((r2 + a) ^ 2 + b ^ 2) := by
      have h := sqrt_sq_add_sq_triangle (l * (r2 - a)) (l * b)
        ((1 - l) * (-r2 - a)) ((1 - l) * b)
      rw [show (l * (r2 - a) + (1 - l) * (-r2 - a)) ^ 2 +
            (l * b + (1 - l) * b) ^ 2 =
            ((2 * l - 1) * r2 - a) ^ 2 + b ^ 2 by ring,
        hkey, sqrt_sq_add_sq_smul l _ _ hl0,
        sqrt_sq_add_sq_smul (1 - l) _ _ (by linarith),
        show (-r2 - a) ^ 2 + b ^ 2 = (r2 + a) ^ 2 + b ^ 2 by ring] at h
      exact h
    unfold pairSum
    linarith [t1, t2]

/-- The magnitude of the cross product of the analytic partials has the
closed form `√((radius + v·cos(u/2))² + v²/4)` (the first fundamental form
of the Möbius embedding, using `E·G - F² = E` here). -/
theorem cross_magnitude_closed (r u v : ℝ) :
    norm3 (crossProd (specPartialU r u v) (specPartialV u)) =
      Real.sqrt ((r + v * Real.cos (u / 2)) ^ 2 + v ^ 2 / 4) := by
  have h1 := Real.sin_sq_add_cos_sq (u / 2)
  have h2 := Real.sin_sq_add_cos_sq u
  unfold norm3 crossProd specPartialU specPartialV
  simp only
  congr 1
  linear_combination
    (((r + v * Real.cos (u / 2)) ^ 2) * (Real.sin (u / 2)) ^ 2 +
      v ^ 2 / 4 * ((Real.sin (u / 2)) ^ 2 + (Real.cos (u / 2)) ^ 2) ^ 2 +
      ((r + v * Real.cos (u / 2)) ^ 2) * (Real.cos (u / 2)) ^ 2 *
        ((Real.sin u) ^ 2 + (Real.cos u) ^ 2 + 1)) * h2 +
    (v ^ 2 / 4 * ((Real.sin (u / 2)) ^ 2 + (Real.cos (u / 2)) ^ 2 + 1) +
      ((r + v * Real.cos (u / 2)) ^ 2)) * h1

theorem meshT_reflect {n : ℕ} (hn : 2 ≤ n) {i : ℕ} (hi : i < n) :
    meshT n (n - 1 - i) = -meshT n i := by
  have hi' : i ≤ n - 1 := by omega
  have h1 : ((n - 1 - i : ℕ) : ℝ) = ((n - 1 : ℕ) : ℝ) - (i : ℝ) :=
    Nat.cast_sub hi'
  have h2 : ((n - 1 : ℕ) : ℝ) = (n : ℝ) - 1 := by
    have h : 1 ≤ n := by omega
    rw [Nat.cast_sub h, Nat.cast_one]
  have hne : (n : ℝ) - 1 ≠ 0 := by
    have h : (2 : ℝ) ≤ (n : ℝ) := by exact_mod_cast hn
    linarith
  unfold meshT
  rw [h1, h2]
  field_simp
  ring

/-- Reflecting the transverse index pairs the integrand at `v` with the
integrand at `-v`: twice the Riemann sum is a sum of `pairSum` terms. -/
theorem sum_pair (r w : ℝ) {n : ℕ} (hn : 2 ≤ n) :
    2 * ∑ i ∈ Finset.range n, ∑ j ∈ Finset.range n,
        Real.sqrt ((r + w * meshT n i * Real.cos (meshUnode n j / 2)) ^ 2 +
          (w * meshT n i) ^ 2 / 4) =
      ∑ i ∈ Finset.range n, ∑ j ∈ Finset.range n,
        pairSum r (w * (meshT n i * Real.cos (meshUnode n j / 2)))
          (w * (meshT n i / 2)) := by
  have hrefl : (∑ i ∈ Finset.range n, ∑ j ∈ Finset.range n,
        Real.sqrt ((r + w * meshT n i * Real.cos (meshUnode n j / 2)) ^ 2 +
          (w * meshT n i) ^ 2 / 4)) =
      ∑ i ∈ Finset.range n, ∑ j ∈ Finset.range n,
        Real.sqrt ((r + w * meshT n (n - 1 - i) *
            Real.cos (meshUnode n j / 2)) ^ 2 +
          (w * meshT n (n - 1 - i)) ^ 2 / 4) :=
    (Finset.sum_range_reflect (fun i => ∑ j ∈ Finset.range n,
      Real.sqrt ((r + w * meshT n i * Real.cos (meshUnode n j / 2)) ^ 2 +
        (w * meshT n i) ^ 2 / 4)) n).symm
  have step : (∑ i ∈ Finset.range n, ∑ j ∈ Finset.range n,
        Real.sqrt ((r + w * meshT n i * Real.cos (meshUnode n j / 2)) ^ 2 +
          (w * meshT n i) ^ 2 / 4)) +
      (∑ i ∈ Finset.range n, ∑ j ∈ Finset.range n,
        Real.sqrt ((r + w * meshT n (n - 1 - i) *
            Real.cos (meshUnode n j / 2)) ^ 2 +
          (w * meshT n (n - 1 - i)) ^ 2 / 4)) =
      ∑ i ∈ Finset.range n, ∑ j ∈ Finset.range n,
        pairSum r (w * (meshT n i * Real.cos (meshUnode n j / 2)))
          (w * (meshT n i / 2)) := by
    rw [← Finset.sum_add_distrib]
    refine Finset.sum_congr rfl fun i hi => ?_
    rw [← Finset.sum_add_distrib]
    refine Finset.sum_congr rfl fun j hj => ?_
    rw [meshT_reflect hn (Finset.mem_range.1 hi)]
    unfold pairSum
    congr 1
    · congr 1
      ring
    · congr 1
      ring
  linarith [hrefl, step]

/-- Closed form of the surface-area estimator at a freshly constructed
state. -/
theorem area_create (r w : ℝ) {n : ℕ} (hn : 2 ≤ n) :
    calculate_surface_area (create r w n) =
      2 * Real.pi / (((n : ℝ) - 1) ^ 2) *
        (w * ∑ i ∈ Finset.range n, ∑ j ∈ Finset.range n,
          Real.sqrt ((r + w * meshT n i * Real.cos (meshUnode n j / 2)) ^ 2 +
            (w * meshT n i) ^ 2 / 4)) := by
  have hc := consistent_create r w n
  have hrc := ranges_closed_form hc (by rw [create_resolution]; exact hn)
  rw [create_resolution, create_width] at hrc
  have hu : ∀ j : ℕ, (create r w n).u_range.entry j = meshUnode n j := by
    intro j
    rw [hrc.2.1 j]
    rfl
  have hv : ∀ i : ℕ, (create r w n).v_range.entry i = w * meshT n i := by
    intro i
    rw [hrc.2.2.2.2.2.1 i]
    unfold meshT
    ring
  have hdu : (create r w n).u_range.entry 1 - (create r w n).u_range.entry 0 =
      2 * Real.pi / ((n : ℝ) - 1) := by
    rw [hrc.2.1 1, hrc.2.1 0]
    push_cast
    ring
  have hdv : (create r w n).v_range.entry 1 - (create r w n).v_range.entry 0 =
      w / ((n : ℝ) - 1) := by
    rw [hrc.2.2.2.2.2.1 1, hrc.2.2.2.2.2.1 0]
    push_cast
    ring
  have hsum : (∑ i ∈ Finset.range n, ∑ j ∈ Finset.range n,
        norm3 (crossProd
          (specPartialU r ((create r w n).u_range.entry j)
            ((create r w n).v_range.entry i))
          (specPartialV ((create r w n).u_range.entry j)))) =
      ∑ i ∈ Finset.range n, ∑ j ∈ Finset.range n,
        Real.sqrt ((r + w * meshT n i * Real.cos (meshUnode n j / 2)) ^ 2 +
          (w * meshT n i) ^ 2 / 4) := by
    refine Finset.sum_congr rfl fun i _ => Finset.sum_congr rfl fun j _ => ?_
    rw [hu j, hv i, cross_magnitude_closed]
  have hne : (n : ℝ) - 1 ≠ 0 := by
    have h : (2 : ℝ) ≤ (n : ℝ) := by exact_mod_cast hn
    linarith
  rw [surface_area_eq hc, create_radius, create_resolution, hdu, hdv, hsum]
  field_simp
  ring

/-! ### The claims -/

/-- C2: in every consistent, valid state, `calculate_surface_area` returns
exactly the left-corner Riemann sum — the Euclidean magnitude of the cross
product of the spec's analytic partials, evaluated at all
`resolution × resolution` mesh points, summed, and multiplied by
`du * dv` — and the result is non-negative. -/
theorem surface_area_is_riemann_sum (s : MobiusStrip) (h : Consistent s)
    (hval : Valid s) :
    calculate_surface_area s =
      (∑ i ∈ Finset.range s.resolution, ∑ j ∈ Finset.range s.resolution,
        norm3 (crossProd
          (specPartialU s.radius (s.u_range.entry j) (s.v_range.entry i))
          (specPartialV (s.u_range.entry j)))) *
        (s.u_range.entry 1 - s.u_range.entry 0) *
        (s.v_range.entry 1 - s.v_range.entry 0) ∧
    0 ≤ calculate_surface_area s :=
  ⟨surface_area_eq h, surface_area_nonneg h hval⟩

/-- C2 witness at `create 3 1 4`. -/
theorem surface_area_is_riemann_sum_witness :
    0 ≤ calculate_surface_area (create 3 1 4) :=
  (surface_area_is_riemann_sum (create 3 1 4) (consistent_create 3 1 4)
    (valid_create (by norm_num) (by norm_num) (by omega))).2

/-- C3: in every consistent, valid state, `calculate_edge_length` returns
exactly the sum of Euclidean distances between consecutive sampled points of
the first boundary row (row 0, the `v = v_min = -width/2` row), over the
`resolution - 1` consecutive pairs, multiplied by the fixed factor
`2π / resolution`; the result is non-negative. -/
theorem edge_length_is_chord_sum (s : MobiusStrip) (h : Consistent s)
    (hval : Valid s) :
    calculate_edge_length s =
      (∑ k ∈ Finset.range (s.resolution - 1),
        Real.sqrt ((s.x.entry 0 (k + 1) - s.x.entry 0 k) ^ 2 +
          (s.y.entry 0 (k + 1) - s.y.entry 0 k) ^ 2 +
          (s.z.entry 0 (k + 1) - s.z.entry 0 k) ^ 2)) *
        2 * Real.pi / (s.resolution : ℝ) ∧
    s.v_range.entry 0 = -s.width / 2 ∧
    0 ≤ calculate_edge_length s := by
  obtain ⟨hr, hw, hn⟩ := hval
  refine ⟨edge_length_eq h, (ranges_closed_form h hn).2.2.2.2.2.2.1, ?_⟩
  rw [edge_length_eq h]
  have hsum : 0 ≤ ∑ k ∈ Finset.range (s.resolution - 1),
      Real.sqrt ((s.x.entry 0 (k + 1) - s.x.entry 0 k) ^ 2 +
        (s.y.entry 0 (k + 1) - s.y.entry 0 k) ^ 2 +
        (s.z.entry 0 (k + 1) - s.z.entry 0 k) ^ 2) :=
    Finset.sum_nonneg fun k _ => Real.sqrt_nonneg _
  exact div_nonneg
    (mul_nonneg (mul_nonneg hsum (by norm_num)) Real.pi_pos.le)
    (Nat.cast_nonneg _)

/-- C3 witness at `create 3 1 4`. -/
theorem edge_length_is_chord_sum_witness :
    0 ≤ calculate_edge_length (create 3 1 4) :=
  (edge_length_is_chord_sum (create 3 1 4) (consistent_create 3 1 4)
    (valid_create (by norm_num) (by norm_num) (by omega))).2.2

/-- C1 counterexample: `create(radius=-1, width=1, resolution=10)` and
`create(radius=1, width=1, resolution=1)` do not fail with
`InvalidParameter`; both succeed, storing the invalid parameters. -/
theorem create_invalid_parameters_not_rejected :
    createE (-1) 1 10 = Except.ok (create (-1) 1 10) ∧
    createE 1 1 1 = Except.ok (create 1 1 1) ∧
    (create (-1) 1 10).radius = -1 ∧
    (create 1 1 1).resolution = 1 :=
  ⟨rfl, rfl, rfl, rfl⟩

/-- C1 amended: neither `create` nor `update` performs any parameter
validation; every call, with valid or invalid parameters, succeeds and never
raises `InvalidParameter`. -/
theorem create_update_never_fail (r w : ℝ) (n : ℕ) (s : MobiusStrip)
    (a : Option ℝ) (b : Option ℝ) (c : Option ℕ) :
    createE r w n = Except.ok (create r w n) ∧
    update_parametersE s a b c = Except.ok (update_parameters s a b c) :=
  ⟨rfl, rfl⟩

/-- C4: in every consistent, valid state, every mesh point obeys the
embedding map exactly (with twist angle `u/2`), and hence satisfies
`x² + y² = (radius + v·cos(u/2))²`. -/
theorem coordinates_embedding_map (s : MobiusStrip) (h : Consistent s)
    (_hval : Valid s) (i j : ℕ) (_hi : i < s.resolution)
    (_hj : j < s.resolution) :
    s.x.entry i j =
      (s.radius + s.v_range.entry i * Real.cos (s.u_range.entry j / 2)) *
        Real.cos (s.u_range.entry j) ∧
    s.y.entry i j =
      (s.radius + s.v_range.entry i * Real.cos (s.u_range.entry j / 2)) *
        Real.sin (s.u_range.entry j) ∧
    s.z.entry i j = s.v_range.entry i * Real.sin (s.u_range.entry j / 2) ∧
    (s.x.entry i j) ^ 2 + (s.y.entry i j) ^ 2 =
      (s.radius + s.v_range.entry i * Real.cos (s.u_range.entry j / 2)) ^ 2 := by
  refine ⟨x_of_consistent h i j, y_of_consistent h i j,
    z_of_consistent h i j, ?_⟩
  rw [x_of_consistent h i j, y_of_consistent h i j]
  have hpyth := Real.sin_sq_add_cos_sq (s.u_range.entry j)
  linear_combination
    ((s.radius + s.v_range.entry i * Real.cos (s.u_range.entry j / 2)) ^ 2) *
      hpyth

/-- C4 witness at `create 3 1 5`, mesh point `(1, 2)`. -/
theorem coordinates_embedding_map_witness :
    (create 3 1 5).x.entry 1 2 =
      ((create 3 1 5).radius + (create 3 1 5).v_range.entry 1 *
          Real.cos ((create 3 1 5).u_range.entry 2 / 2)) *
        Real.cos ((create 3 1 5).u_range.entry 2) ∧
    (create 3 1 5).y.entry 1 2 =
      ((create 3 1 5).radius + (create 3 1 5).v_range.entry 1 *
          Real.cos ((create 3 1 5).u_range.entry 2 / 2)) *
        Real.sin ((create 3 1 5).u_range.entry 2) ∧
    (create 3 1 5).z.entry 1 2 =
      (create 3 1 5).v_range.entry 1 *
        Real.sin ((create 3 1 5).u_range.entry 2 / 2) ∧
    ((create 3 1 5).x.entry 1 2) ^ 2 + ((create 3 1 5).y.entry 1 2) ^ 2 =
      ((create 3 1 5).radius + (create 3 1 5).v_range.entry 1 *
          Real.cos ((create 3 1 5).u_range.entry 2 / 2)) ^ 2 :=
  coordinates_embedding_map (create 3 1 5) (consistent_create 3 1 5)
    ⟨by rw [create_radius]; norm_num, by rw [create_width]; norm_num,
     by rw [create_resolution]; omega⟩ 1 2
    (by rw [create_resolution]; omega) (by rw [create_resolution]; omega)

/-- C5: after every create and every update (with a resolution of at least
2), `u` holds `resolution` evenly spaced values `u[k] = 2πk/(resolution-1)`
spanning `[0, 2π]` inclusive on both ends, and `v` holds `resolution` evenly
spaced values spanning `[-width/2, width/2]` inclusive on both ends. -/
theorem parameter_arrays_are_linspace :
    (∀ (r w : ℝ) (n : ℕ), 2 ≤ n →
      (create r w n).u_range.len = n ∧
      (∀ k : ℕ, (create r w n).u_range.entry k =
        2 * Real.pi * k / ((n : ℝ) - 1)) ∧
      (create r w n).u_range.entry 0 = 0 ∧
      (create r w n).u_range.entry (n - 1) = 2 * Real.pi ∧
      (create r w n).v_range.len = n ∧
      (∀ k : ℕ, (create r w n).v_range.entry k =
        -w / 2 + w * k / ((n : ℝ) - 1)) ∧
      (create r w n).v_range.entry 0 = -w / 2 ∧
      (create r w n).v_range.entry (n - 1) = w / 2) ∧
    (∀ (s : MobiusStrip) (a : Option ℝ) (b : Option ℝ) (c : Option ℕ),
      Consistent s → 2 ≤ (update_parameters s a b c).resolution →
      (update_parameters s a b c).u_range.len =
        (update_parameters s a b c).resolution ∧
      (∀ k : ℕ, (update_parameters s a b c).u_range.entry k =
        2 * Real.pi * k / (((update_parameters s a b c).resolution : ℝ) - 1)) ∧
      (update_parameters s a b c).u_range.entry 0 = 0 ∧
      (update_parameters s a b c).u_range.entry
        ((update_parameters s a b c).resolution - 1) = 2 * Real.pi ∧
      (update_parameters s a b c).v_range.len =
        (update_parameters s a b c).resolution ∧
      (∀ k : ℕ, (update_parameters s a b c).v_range.entry k =
        -(update_parameters s a b c).width / 2 +
          (update_parameters s a b c).width * k /
            (((update_parameters s a b c).resolution : ℝ) - 1)) ∧
      (update_parameters s a b c).v_range.entry 0 =
        -(update_parameters s a b c).width / 2 ∧
      (update_parameters s a b c).v_range.entry
        ((update_parameters s a b c).resolution - 1) =
          (update_parameters s a b c).width / 2) := by
  constructor
  · intro r w n hn
    have h := ranges_closed_form (consistent_create r w n)
      (by rw [create_resolution]; exact hn)
    rw [create_resolution, create_width] at h
    exact h
  · intro s a b c hcons hn
    exact ranges_closed_form (consistent_update s hcons a b c) hn

/-- C5 witness: the create part at `(3, 1, 4)` and the update part at
`update(resolution := 3)` from `create 3 1 4`. -/
theorem parameter_arrays_are_linspace_witness :
    ((create 3 1 4).u_range.len = 4 ∧
     (∀ k : ℕ, (create 3 1 4).u_range.entry k =
       2 * Real.pi * k / ((4 : ℝ) - 1)) ∧
     (create 3 1 4).u_range.entry 0 = 0 ∧
     (create 3 1 4).u_range.entry (4 - 1) = 2 * Real.pi ∧
     (create 3 1 4).v_range.len = 4 ∧
     (∀ k : ℕ, (create 3 1 4).v_range.entry k =
       -1 / 2 + 1 * k / ((4 : ℝ) - 1)) ∧
     (create 3 1 4).v_range.entry 0 = -1 / 2 ∧
     (create 3 1 4).v_range.entry (4 - 1) = 1 / 2) ∧
    ((update_parameters (create 3 1 4) none none (some 3)).u_range.len =
      (update_parameters (create 3 1 4) none none (some 3)).resolution) :=
  ⟨parameter_arrays_are_linspace.1 3 1 4 (by omega),
   (parameter_arrays_are_linspace.2 (create 3 1 4) none none (some 3)
     (consistent_create 3 1 4) (by decide)).1⟩

/-- C6: after every create, and after every update from a reachable state,
the coordinate arrays have shape `resolution × resolution` for the current
resolution and are the image of the current parameters under the embedding
map — no stale derived state. -/
theorem no_stale_derived_state :
    (∀ (r w : ℝ) (n : ℕ), DerivedCurrent (create r w n)) ∧
    (∀ (s : MobiusStrip) (a : Option ℝ) (b : Option ℝ) (c : Option ℕ),
      Consistent s → DerivedCurrent (update_parameters s a b c)) :=
  ⟨fun r w n => derivedCurrent_of_consistent (consistent_create r w n),
   fun s a b c h => derivedCurrent_of_consistent (consistent_update s h a b c)⟩

/-- C6 witness: the spec's own scenario — construct at resolution 100, then
`update(resolution := 50)`; all derived arrays are current. -/
theorem no_stale_derived_state_witness :
    DerivedCurrent (create 3 1 100) ∧
    DerivedCurrent (update_parameters (create 3 1 100) none none (some 50)) :=
  ⟨no_stale_derived_state.1 3 1 100,
   no_stale_derived_state.2 (create 3 1 100) none none (some 50)
     (consistent_create 3 1 100)⟩

/-- C7: `get_edge_points` returns two triples of length-`resolution` arrays;
the first is row `0` (the `v = v_min` row) of the coordinate arrays, the
second is row `resolution - 1` (the `v = v_max` row). -/
theorem edge_points_are_boundary_rows (s : MobiusStrip) (h : Consistent s) :
    ((get_edge_points s).1.1.len = s.resolution ∧
     (get_edge_points s).1.2.1.len = s.resolution ∧
     (get_edge_points s).1.2.2.len = s.resolution ∧
     (get_edge_points s).2.1.len = s.resolution ∧
     (get_edge_points s).2.2.1.len = s.resolution ∧
     (get_edge_points s).2.2.2.len = s.resolution) ∧
    ∀ j : ℕ,
      (get_edge_points s).1.1.entry j = (get_coordinates s).1.entry 0 j ∧
      (get_edge_points s).1.2.1.entry j = (get_coordinates s).2.1.entry 0 j ∧
      (get_edge_points s).1.2.2.entry j = (get_coordinates s).2.2.entry 0 j ∧
      (get_edge_points s).2.1.entry j =
        (get_coordinates s).1.entry (s.resolution - 1) j ∧
      (get_edge_points s).2.2.1.entry j =
        (get_coordinates s).2.1.entry (s.resolution - 1) j ∧
      (get_edge_points s).2.2.2.entry j =
        (get_coordinates s).2.2.entry (s.resolution - 1) j := by
  refine ⟨⟨?_, ?_, ?_, ?_, ?_, ?_⟩, fun j => ⟨rfl, rfl, rfl, rfl, rfl, rfl⟩⟩
  · exact (x_shape_of_consistent h).2
  · exact (y_shape_of_consistent h).2
  · exact (z_shape_of_consistent h).2
  · exact (x_shape_of_consistent h).2
  · exact (y_shape_of_consistent h).2
  · exact (z_shape_of_consistent h).2

/-- C7 witness: immediately after construction at `create 3 1 7`, with no
prior update. -/
theorem edge_points_are_boundary_rows_witness :
    ((get_edge_points (create 3 1 7)).1.1.len = (create 3 1 7).resolution ∧
     (get_edge_points (create 3 1 7)).1.2.1.len = (create 3 1 7).resolution ∧
     (get_edge_points (create 3 1 7)).1.2.2.len = (create 3 1 7).resolution ∧
     (get_edge_points (create 3 1 7)).2.1.len = (create 3 1 7).resolution ∧
     (get_edge_points (create 3 1 7)).2.2.1.len = (create 3 1 7).resolution ∧
     (get_edge_points (create 3 1 7)).2.2.2.len = (create 3 1 7).resolution) ∧
    ∀ j : ℕ,
      (get_edge_points (create 3 1 7)).1.1.entry j =
        (get_coordinates (create 3 1 7)).1.entry 0 j ∧
      (get_edge_points (create 3 1 7)).1.2.1.entry j =
        (get_coordinates (create 3 1 7)).2.1.entry 0 j ∧
      (get_edge_points (create 3 1 7)).1.2.2.entry j =
        (get_coordinates (create 3 1 7)).2.2.entry 0 j ∧
      (get_edge_points (create 3 1 7)).2.1.entry j =
        (get_coordinates (create 3 1 7)).1.entry
          ((create 3 1 7).resolution - 1) j ∧
      (get_edge_points (create 3 1 7)).2.2.1.entry j =
        (get_coordinates (create 3 1 7)).2.1.entry
          ((create 3 1 7).resolution - 1) j ∧
      (get_edge_points (create 3 1 7)).2.2.2.entry j =
        (get_coordinates (create 3 1 7)).2.2.entry
          ((create 3 1 7).resolution - 1) j :=
  edge_points_are_boundary_rows (create 3 1 7) (consistent_create 3 1 7)

/-- C8: `update_parameters` changes exactly the supplied fields; every
omitted field keeps its previous value. -/
theorem update_parameters_frame (s : MobiusStrip) (a : Option ℝ)
    (b : Option ℝ) (c : Option ℕ) :
    (update_parameters s a b c).radius = a.getD s.radius ∧
    (update_parameters s a b c).width = b.getD s.width ∧
    (update_parameters s a b c).resolution = c.getD s.resolution := by
  rcases a with - | r <;> rcases b with - | w <;> rcases c with - | n <;>
    exact ⟨rfl, rfl, rfl⟩

/-- C10: updating with all three fields omitted leaves the whole state — and
hence every accessor — unchanged. -/
theorem update_parameters_noop (s : MobiusStrip) (h : Consistent s) :
    update_parameters s none none none = s ∧
    get_coordinates (update_parameters s none none none) =
      get_coordinates s ∧
    get_edge_points (update_parameters s none none none) =
      get_edge_points s ∧
    calculate_surface_area (update_parameters s none none none) =
      calculate_surface_area s ∧
    calculate_edge_length (update_parameters s none none none) =
      calculate_edge_length s := by
  have h3 : update_parameters s none none none = s := h.2.2
  exact ⟨h3, by rw [h3], by rw [h3], by rw [h3], by rw [h3]⟩

/-- C10 witness at `create 3 1 10`. -/
theorem update_parameters_noop_witness :
    update_parameters (create 3 1 10) none none none = create 3 1 10 :=
  (update_parameters_noop (create 3 1 10) (consistent_create 3 1 10)).1

theorem area_sum_width_mono (r : ℝ) {w1 w2 : ℝ} {n : ℕ} (hr : 0 ≤ r)
    (hn : 2 ≤ n) (h0 : 0 ≤ w1) (h12 : w1 ≤ w2) :
    w1 * ∑ i ∈ Finset.range n, ∑ j ∈ Finset.range n,
        Real.sqrt ((r + w1 * meshT n i * Real.cos (meshUnode n j / 2)) ^ 2 +
          (w1 * meshT n i) ^ 2 / 4) ≤
      w2 * ∑ i ∈ Finset.range n, ∑ j ∈ Finset.range n,
        Real.sqrt ((r + w2 * meshT n i * Real.cos (meshUnode n j / 2)) ^ 2 +
          (w2 * meshT n i) ^ 2 / 4) := by
  have hp1 := sum_pair r w1 hn
  have hp2 := sum_pair r w2 hn
  have key : w1 * (∑ i ∈ Finset.range n, ∑ j ∈ Finset.range n,
        pairSum r (w1 * (meshT n i * Real.cos (meshUnode n j / 2)))
          (w1 * (meshT n i / 2))) ≤
      w2 * (∑ i ∈ Finset.range n, ∑ j ∈ Finset.range n,
        pairSum r (w2 * (meshT n i * Real.cos (meshUnode n j / 2)))
          (w2 * (meshT n i / 2))) := by
    rw [Finset.mul_sum, Finset.mul_sum]
    refine Finset.sum_le_sum fun i _ => ?_
    rw [Finset.mul_sum, Finset.mul_sum]
    refine Finset.sum_le_sum fun j _ => ?_
    exact mul_le_mul h12 (pairSum_scale_mono r _ _ hr h0 h12)
      (pairSum_nonneg _ _ _) (h0.trans h12)
  rw [← hp1, ← hp2] at key
  linarith [key]

theorem area_sum_radius_mono (w : ℝ) {r1 r2 : ℝ} {n : ℕ} (h0 : 0 ≤ r1)
    (h12 : r1 ≤ r2) (hn : 2 ≤ n) :
    (∑ i ∈ Finset.range n, ∑ j ∈ Finset.range n,
        Real.sqrt ((r1 + w * meshT n i * Real.cos (meshUnode n j / 2)) ^ 2 +
          (w * meshT n i) ^ 2 / 4)) ≤
      ∑ i ∈ Finset.range n, ∑ j ∈ Finset.range n,
        Real.sqrt ((r2 + w * meshT n i * Real.cos (meshUnode n j / 2)) ^ 2 +
          (w * meshT n i) ^ 2 / 4) := by
  have hp1 := sum_pair r1 w hn
  have hp2 := sum_pair r2 w hn
  have key : (∑ i ∈ Finset.range n, ∑ j ∈ Finset.range n,
        pairSum r1 (w * (meshT n i * Real.cos (meshUnode n j / 2)))
          (w * (meshT n i / 2))) ≤
      ∑ i ∈ Finset.range n, ∑ j ∈ Finset.range n,
        pairSum r2 (w * (meshT n i * Real.cos (meshUnode n j / 2)))
          (w * (meshT n i / 2)) :=
    Finset.sum_le_sum fun i _ => Finset.sum_le_sum fun j _ =>
      pairSum_radius_mono _ _ h0 h12
  rw [← hp1, ← hp2] at key
  linarith [key]

/-- C9: the surface-area estimate is monotonically non-decreasing in width
for fixed radius and resolution, and non-decreasing in radius for fixed
width and resolution. -/
theorem surface_area_monotone :
    (∀ (r w1 w2 : ℝ) (n : ℕ), 0 < r → 2 ≤ n → 0 < w1 → w1 ≤ w2 →
      calculate_surface_area (create r w1 n) ≤
        calculate_surface_area (create r w2 n)) ∧
    (∀ (w r1 r2 : ℝ) (n : ℕ), 0 < w → 2 ≤ n → 0 < r1 → r1 ≤ r2 →
      calculate_surface_area (create r1 w n) ≤
        calculate_surface_area (create r2 w n)) := by
  constructor
  · intro r w1 w2 n hr hn hw1 h12
    rw [area_create r w1 hn, area_create r w2 hn]
    have hK : 0 ≤ 2 * Real.pi / (((n : ℝ) - 1) ^ 2) := by positivity
    exact mul_le_mul_of_nonneg_left
      (area_sum_width_mono r hr.le hn hw1.le h12) hK
  · intro w r1 r2 n hw hn hr1 h12
    rw [area_create r1 w hn, area_create r2 w hn]
    have hK : 0 ≤ 2 * Real.pi / (((n : ℝ) - 1) ^ 2) := by positivity
    refine mul_le_mul_of_nonneg_left ?_ hK
    exact mul_le_mul_of_nonneg_left
      (area_sum_radius_mono w hr1.le h12 hn) hw.le

/-- C9 witness: wider strip `(3,1,4) → (3,2,4)` and larger radius
`(3,1,4) → (4,1,4)`. -/
theorem surface_area_monotone_witness :
    calculate_surface_area (create 3 1 4) ≤
      calculate_surface_area (create 3 2 4) ∧
    calculate_surface_area (create 3 1 4) ≤
      calculate_surface_area (create 4 1 4) :=
  ⟨surface_area_monotone.1 3 1 2 4 (by norm_num) (by omega) (by norm_num)
     (by norm_num),
   surface_area_monotone.2 1 3 4 4 (by norm_num) (by omega) (by norm_num)
     (by norm_num)⟩

end MobiusStrip

end
